import Mathlib

/-!
Verification of the DoceGestão point-of-sale application (React/TypeScript)
against its natural-language specification.

The TypeScript sources are shallowly embedded as Lean definitions:

* `src/types.ts`      : `Product`, `CartItem`, `Sale`, `PaymentMethod`.
* `src/Inventory.tsx` (POS component part) : `addToCart`, `updateQuantity`,
  `removeFromCart`, `deliveryValueOf`, `handleCheckout`.
* `src/App.tsx`       : `handleCompleteSale`, `handleResolvePendingSale`.
* `src/Dashboard.tsx` : `filteredSales`, `totalRevenue`, `pendingRevenue`,
  `chartDataToday`, and the guard of the pending-sale resolution UI.
* `src/dataService.ts`: `verifyCredentials`.

Modelling conventions: JavaScript numbers are modelled as `ℚ` (prices,
totals) and `ℤ` (stock counts, quantities, epoch milliseconds); a parsed
`Date` object is modelled by its two observables used in the code,
`getTime()` and `getHours()`; `crypto.randomUUID()` and `new Date()` are
passed in as explicit parameters; the remote backend is modelled as an
explicit state record.
-/

namespace DoceGestao

/-- The observables of a JavaScript `Date` used by the code:
`getTime()` (epoch milliseconds) and `getHours()` (local hour of day). -/
structure JSDate where
  epochMs : Int
  localHour : Nat
deriving DecidableEq

/-- `Product` from `src/types.ts`. -/
structure Product where
  id : String
  name : String
  category : String
  price : ℚ
  cost : ℚ
  stock : Int
  imageUrl : Option String
deriving DecidableEq

/-- `CartItem` from `src/types.ts`: a `Product` snapshot plus a quantity. -/
structure CartItem where
  id : String
  name : String
  category : String
  price : ℚ
  cost : ℚ
  stock : Int
  imageUrl : Option String
  quantity : Int
deriving DecidableEq

/-- `{ ...product, quantity: q }` — the spread used by `addToCart`. -/
def CartItem.ofProduct (p : Product) (q : Int) : CartItem :=
  { id := p.id, name := p.name, category := p.category, price := p.price,
    cost := p.cost, stock := p.stock, imageUrl := p.imageUrl, quantity := q }

/-- The payment-method tag of a `Sale` (`src/types.ts`). -/
inductive PaymentMethod where
  | cash
  | card
  | pix
  | pending
  | ifood
deriving DecidableEq

/-- The closed set of methods a pending sale may be resolved to
(the parameter type of `handleResolvePendingSale` in `src/App.tsx`). -/
inductive ResolvedMethod where
  | cash
  | card
  | pix
  | ifood
deriving DecidableEq

def ResolvedMethod.toPayment : ResolvedMethod → PaymentMethod
  | .cash => .cash
  | .card => .card
  | .pix => .pix
  | .ifood => .ifood

/-- `Sale` from `src/types.ts`.  The ISO date string is modelled by the
`JSDate` observables the code extracts from it. -/
structure Sale where
  id : String
  items : List CartItem
  total : ℚ
  date : JSDate
  paymentMethod : PaymentMethod
  observation : String
deriving DecidableEq

/-! ## Numeric parsing (`parseFloat(deliveryCost.replace(',', '.')) || 0`) -/

/-- Value of a digit run read left to right. -/
def digitsVal (l : List Char) : ℕ :=
  l.foldl (fun a c => 10 * a + (c.toNat - 48)) 0

/-- Value of a fractional digit run (the digits after the decimal point):
`digits / 10 ^ length`. -/
def fracVal (l : List Char) : ℚ :=
  (digitsVal l : ℚ) / (10 : ℚ) ^ l.length

/-- JavaScript `parseFloat`, modelled on the grammar it accepts for the
number-field inputs in question: an optional sign, an integer digit run,
and an optional fraction introduced by a period; any trailing characters
are ignored, and `none` stands for `NaN` (no digit could be read).
(Leading whitespace and exponents are outside the modelled subset.) -/
def jsParseFloat (s : String) : Option ℚ :=
  let cs := s.data
  let sign : Bool := match cs with
    | '-' :: _ => true
    | _ => false
  let cs1 : List Char := match cs with
    | '-' :: t => t
    | '+' :: t => t
    | _ => cs
  let ds := cs1.takeWhile Char.isDigit
  let rest := cs1.dropWhile Char.isDigit
  let fs : List Char := match rest with
    | '.' :: t => t.takeWhile Char.isDigit
    | _ => []
  if ds.isEmpty && fs.isEmpty then none
  else
    let v : ℚ := (digitsVal ds : ℚ) + fracVal fs
    some (if sign then -v else v)

/-- `s.replace(',', '.')` on a JavaScript string with a string pattern
replaces only the first occurrence. -/
def replaceFirstCommaAux : List Char → List Char
  | [] => []
  | c :: t => if c = ',' then '.' :: t else c :: replaceFirstCommaAux t

def replaceFirstComma (s : String) : String :=
  ⟨replaceFirstCommaAux s.data⟩

/-- `x || 0` on a JavaScript number: `0` stays `0`, every other (non-NaN)
value passes through. -/
def jsOrZero (q : ℚ) : ℚ :=
  if q = 0 then 0 else q

/-- `const deliveryValue = parseFloat(deliveryCost.replace(',', '.')) || 0;`
(POS component, `src/Inventory.tsx` line 291). -/
def deliveryValueOf (deliveryCost : String) : ℚ :=
  match jsParseFloat (replaceFirstComma deliveryCost) with
  | none => 0
  | some v => jsOrZero v

/-- `delivery.toFixed(2)` — decimal rendering with two fraction digits. -/
def toFixed2 (q : ℚ) : String :=
  let sign := if q < 0 then "-" else ""
  let cents : ℕ := (round (|q| * 100)).toNat
  let r := cents % 100
  sign ++ toString (cents / 100) ++ "." ++ (if r < 10 then "0" else "") ++ toString r

/-! ## Cart operations (POS component in `src/Inventory.tsx`) -/

/-- `addToCart` (`src/Inventory.tsx` lines 260–271). -/
def addToCart (cart : List CartItem) (product : Product) : List CartItem :=
  if product.stock ≤ 0 then cart
  else
    match cart.find? (fun item => item.id == product.id) with
    | some existing =>
        if product.stock ≤ existing.quantity then cart
        else cart.map (fun item =>
          if item.id == product.id then { item with quantity := item.quantity + 1 } else item)
    | none => cart ++ [CartItem.ofProduct product 1]

/-- The per-item body of `updateQuantity`'s `map` (`src/Inventory.tsx`
lines 274–283): on the targeted item, compute `newQty = quantity + delta`,
keep the item unchanged if `newQty` exceeds the stock of the product
looked up live in `products`, and otherwise set the quantity to
`Math.max(0, newQty)`. -/
def bumpQuantity (products : List Product) (id : String) (delta : Int)
    (item : CartItem) : CartItem :=
  if item.id == id then
    let newQty := item.quantity + delta
    match products.find? (fun p => p.id == id) with
    | some originalProduct =>
        if originalProduct.stock < newQty then item
        else { item with quantity := max 0 newQty }
    | none => { item with quantity := max 0 newQty }
  else item

/-- `updateQuantity` (`src/Inventory.tsx` lines 273–284): adjust a cart
item's quantity by `delta`, with the stock ceiling looked up live in the
`products` collection, then drop items whose quantity is not positive. -/
def updateQuantity (products : List Product) (cart : List CartItem)
    (id : String) (delta : Int) : List CartItem :=
  (cart.map (bumpQuantity products id delta)).filter (fun item => 0 < item.quantity)

/-- `removeFromCart` (`src/Inventory.tsx` lines 286–288). -/
def removeFromCart (cart : List CartItem) (id : String) : List CartItem :=
  cart.filter (fun item => item.id != id)

/-- A sequence of `updateQuantity` (the spec's `changeQuantity`) calls,
each a pair of target item id and delta. -/
def applyChangeQuantity (products : List Product) (cart : List CartItem)
    (calls : List (String × Int)) : List CartItem :=
  calls.foldl (fun c call => updateQuantity products c call.1 call.2) cart

/-- `const productsTotal = cart.reduce((acc, item) => acc + (item.price * item.quantity), 0);`
(`src/Inventory.tsx` line 290 and `src/App.tsx` line 71). -/
def productsTotal (items : List CartItem) : ℚ :=
  items.foldl (fun acc item => acc + item.price * (item.quantity : ℚ)) 0

/-! ## Sale completion (`src/App.tsx`) -/

/-- The delivery annotation string built at `src/App.tsx` line 78. -/
def deliveryText (delivery : ℚ) : String :=
  "[Entrega: R$ " ++ toFixed2 delivery ++ "]"

/-- The observation text produced at `src/App.tsx` lines 76–80: the
delivery annotation is appended exactly when `delivery > 0`. -/
def finalObservationOf (observation : String) (delivery : ℚ) : String :=
  if 0 < delivery then
    if observation = "" then deliveryText delivery
    else observation ++ " " ++ deliveryText delivery
  else observation

/-- `p.stock - soldItem.quantity` for a product affected by the sale;
unaffected products are returned unchanged (`src/App.tsx` lines 95–103). -/
def sellOne (items : List CartItem) (p : Product) : Product :=
  match items.find? (fun i => i.id == p.id) with
  | some i => { p with stock := p.stock - i.quantity }
  | none => p

/-- `handleCompleteSale` (`src/App.tsx` lines 70–109): build the new `Sale`
record, append it to the sales list, and decrement the stock of every
affected product in one in-memory pass.  `freshId` stands for
`crypto.randomUUID()` and `now` for `new Date()`. -/
def handleCompleteSale (sales : List Sale) (products : List Product)
    (items : List CartItem) (method : PaymentMethod) (observation : String)
    (deliveryCost : ℚ) (freshId : String) (now : JSDate) :
    List Sale × List Product :=
  let total := productsTotal items + jsOrZero deliveryCost
  let finalObs := finalObservationOf observation (jsOrZero deliveryCost)
  let newSale : Sale :=
    { id := freshId, items := items, total := total, date := now,
      paymentMethod := method, observation := finalObs }
  (sales ++ [newSale], products.map (sellOne items))

/-! ## POS state and checkout -/

/-- The state held by the POS component (`src/Inventory.tsx` lines 254–258)
together with the `sales` and `products` collections owned by `src/App.tsx`. -/
structure POSState where
  products : List Product
  sales : List Sale
  cart : List CartItem
  searchTerm : String
  paymentMethod : PaymentMethod
  observation : String
  deliveryCost : String
deriving DecidableEq

/-- `handleCheckout` (`src/Inventory.tsx` lines 298–306) composed with the
`onCompleteSale` callback (`src/App.tsx`'s `handleCompleteSale`): a no-op
on an empty cart; otherwise record the sale, decrement stock, clear the
cart and reset the transient form fields. -/
def handleCheckout (st : POSState) (freshId : String) (now : JSDate) : POSState :=
  if st.cart.length = 0 then st
  else
    let dv := deliveryValueOf st.deliveryCost
    let res := handleCompleteSale st.sales st.products st.cart st.paymentMethod
      st.observation dv freshId now
    { st with
      sales := res.1, products := res.2, cart := [], searchTerm := "",
      paymentMethod := .cash, observation := "", deliveryCost := "" }

/-! ## Pending-sale resolution (`src/App.tsx` and `src/Dashboard.tsx`) -/

/-- The `sales` and `products` collections owned by `src/App.tsx`. -/
structure AppState where
  products : List Product
  sales : List Sale
deriving DecidableEq

/-- `handleResolvePendingSale` (`src/App.tsx` lines 111–120): overwrite the
payment method of every sale whose id matches. -/
def handleResolvePendingSale (sales : List Sale) (saleId : String)
    (method : ResolvedMethod) : List Sale :=
  sales.map (fun s =>
    if s.id == saleId then { s with paymentMethod := method.toPayment } else s)

/-- `handleResolvePendingSale` as it acts on the App state: only the
`sales` collection is written (`setSales` at `src/App.tsx` line 116); the
product collection is untouched. -/
def resolvePendingApp (st : AppState) (saleId : String)
    (method : ResolvedMethod) : AppState :=
  { st with sales := handleResolvePendingSale st.sales saleId method }

/-- The resolution action as it is reachable from the Dashboard
(`src/Dashboard.tsx` lines 319–348): the resolve buttons that invoke
`onResolvePending` are rendered only for a sale whose payment method is
`pending`, so the action fires `handleResolvePendingSale` only when the
sale identified by `saleId` is currently pending. -/
def resolvePendingFromDashboard (st : AppState) (saleId : String)
    (method : ResolvedMethod) : AppState :=
  match st.sales.find? (fun s => s.id == saleId) with
  | some s =>
      if s.paymentMethod = .pending then resolvePendingApp st saleId method
      else st
  | none => st

/-! ## Dashboard aggregation (`src/Dashboard.tsx`) -/

/-- The wall-clock context of the Dashboard's filtering: `now.getTime()`
and the local-midnight boundary `new Date(y, m, d).getTime()`
(`src/Dashboard.tsx` lines 25–28). -/
structure Clock where
  nowMs : Int
  todayStartMs : Int
deriving DecidableEq

inductive DateRange where
  | today
  | week
  | month
  | all
deriving DecidableEq

inductive PaymentFilter where
  | all
  | cash
  | card
  | pix
  | ifood
  | pending
deriving DecidableEq

/-- The date condition of the sale filter (`src/Dashboard.tsx` lines 36–38). -/
def dateMatch (clock : Clock) (range : DateRange) (s : Sale) : Bool :=
  match range with
  | .today => clock.todayStartMs ≤ s.date.epochMs
  | .week => clock.nowMs - 7 * 24 * 60 * 60 * 1000 ≤ s.date.epochMs
  | .month => clock.nowMs - 30 * 24 * 60 * 60 * 1000 ≤ s.date.epochMs
  | .all => true

/-- The payment condition of the sale filter (`src/Dashboard.tsx` line 41). -/
def payMatch (pf : PaymentFilter) (s : Sale) : Bool :=
  match pf with
  | .all => true
  | .cash => s.paymentMethod = PaymentMethod.cash
  | .card => s.paymentMethod = PaymentMethod.card
  | .pix => s.paymentMethod = PaymentMethod.pix
  | .ifood => s.paymentMethod = PaymentMethod.ifood
  | .pending => s.paymentMethod = PaymentMethod.pending

/-- `filteredSales` (`src/Dashboard.tsx` lines 24–45). -/
def filteredSales (sales : List Sale) (range : DateRange) (pf : PaymentFilter)
    (clock : Clock) : List Sale :=
  sales.filter (fun s => dateMatch clock range s && payMatch pf s)

/-- `.reduce((acc, sale) => acc + sale.total, 0)`. -/
def sumTotals (l : List Sale) : ℚ :=
  l.foldl (fun acc s => acc + s.total) 0

/-- `totalRevenue` (`src/Dashboard.tsx` lines 48–50): the sum of totals
over filtered sales whose method is not `pending`. -/
def totalRevenue (sales : List Sale) (range : DateRange) (pf : PaymentFilter)
    (clock : Clock) : ℚ :=
  sumTotals ((filteredSales sales range pf clock).filter
    (fun s => !(s.paymentMethod = PaymentMethod.pending : Bool)))

/-- `pendingRevenue` (`src/Dashboard.tsx` lines 52–54): the sum of totals
over filtered sales whose method is `pending`. -/
def pendingRevenue (sales : List Sale) (range : DateRange) (pf : PaymentFilter)
    (clock : Clock) : ℚ :=
  sumTotals ((filteredSales sales range pf clock).filter
    (fun s => (s.paymentMethod = PaymentMethod.pending : Bool)))

/-- The `dateRange === 'today'` branch of `chartData`
(`src/Dashboard.tsx` lines 63–76): one point per hour for hours
`8, 9, …, 21`, each valued at the sum of totals of the filtered sales
whose local hour equals that hour. -/
def chartDataToday (filtered : List Sale) : List (String × ℚ) :=
  (List.range 14).map (fun i =>
    let hour := i + 8
    (toString hour ++ "h",
     sumTotals (filtered.filter (fun s => s.date.localHour == hour))))

/-! ## Credential check (`src/dataService.ts`) -/

/-- The remote backend as observed by `verifyCredentials`: whether the
cloud client exists (`isCloudEnabled && supabase`), the rows of the
`app_users` table as (username, password) pairs, and whether the query
itself fails (network or table error). -/
structure Backend where
  cloudEnabled : Bool
  users : List (String × String)
  queryError : Bool
deriving DecidableEq

/-- The `.single()` query against `app_users` (`src/dataService.ts`
lines 19–24) succeeds with data exactly when the query does not error and
exactly one row matches both the username and the password. -/
def remoteSingleOk (b : Backend) (username password : String) : Bool :=
  !b.queryError &&
    (b.users.filter (fun up => up.1 == username && up.2 == password)).length == 1

/-- `verifyCredentials` (`src/dataService.ts` lines 16–38): consult the
remote `app_users` table when the cloud is enabled, then fall through to
the hardcoded `admin`/`admin` pair. -/
def verifyCredentials (b : Backend) (username password : String) : Bool :=
  if b.cloudEnabled && remoteSingleOk b username password then true
  else if username == "admin" && password == "admin" then true
  else false

/-! ## The POS state machine and its invariant -/

/-- The user actions that mutate the POS state: clicking a product card
(`addToCart` with the rendered product, identified here by its id),
the plus/minus cart buttons (`updateQuantity`), the trash button
(`removeFromCart`), and the checkout button (`handleCheckout`, with its
fresh sale id and timestamp made explicit). -/
inductive POSOp where
  | add (productId : String)
  | change (itemId : String) (delta : Int)
  | remove (itemId : String)
  | checkout (freshId : String) (now : JSDate)

def stepOp (st : POSState) : POSOp → POSState
  | .add pid =>
      match st.products.find? (fun p => p.id == pid) with
      | some p => { st with cart := addToCart st.cart p }
      | none => st
  | .change i δ => { st with cart := updateQuantity st.products st.cart i δ }
  | .remove i => { st with cart := removeFromCart st.cart i }
  | .checkout freshId now => handleCheckout st freshId now

def applyOps (st : POSState) (ops : List POSOp) : POSState :=
  ops.foldl stepOp st

/-- The cart-side invariant enforced by the Cart/Checkout Engine: every
cart item has a positive quantity that does not exceed the stock of the
product looked up live in the product collection (when that lookup
succeeds). -/
def CartInv (products : List Product) (cart : List CartItem) : Prop :=
  ∀ item ∈ cart, 1 ≤ item.quantity ∧
    ((products.find? (fun p => p.id == item.id)).all
      (fun p => item.quantity ≤ p.stock) = true)

/-- The full state invariant: product ids are pairwise distinct, cart item
ids are pairwise distinct, every stock is non-negative, and the cart
invariant holds. -/
def StateInv (st : POSState) : Prop :=
  (st.products.map Product.id).Nodup ∧
  (st.cart.map CartItem.id).Nodup ∧
  (∀ p ∈ st.products, 0 ≤ p.stock) ∧
  CartInv st.products st.cart

instance (products : List Product) (cart : List CartItem) :
    Decidable (CartInv products cart) := by
  unfold CartInv
  infer_instance

instance (st : POSState) : Decidable (StateInv st) := by
  unfold StateInv
  infer_instance

/-! ## Concrete sample data (used to instantiate the theorems) -/

def demoProduct : Product :=
  { id := "p1", name := "Brigadeiro Gourmet", category := "Doces",
    price := 4, cost := 1, stock := 50, imageUrl := none }

def demoProduct2 : Product :=
  { id := "p2", name := "Bolo de Pote", category := "Doces",
    price := 10, cost := 4, stock := 8, imageUrl := none }

def demoProducts : List Product := [demoProduct, demoProduct2]

def demoCart : List CartItem :=
  [CartItem.ofProduct demoProduct 2, CartItem.ofProduct demoProduct2 1]

def demoDate : JSDate := { epochMs := 1, localHour := 10 }

def demoState : POSState :=
  { products := demoProducts, sales := [], cart := demoCart, searchTerm := "",
    paymentMethod := .cash, observation := "", deliveryCost := "5,00" }

def demoEmptyState : POSState :=
  { products := demoProducts, sales := [], cart := [], searchTerm := "",
    paymentMethod := .pix, observation := "obs", deliveryCost := "3" }

def demoPendingSale : Sale :=
  { id := "s1", items := demoCart, total := 17, date := demoDate,
    paymentMethod := .pending, observation := "" }

def demoResolvedSale : Sale :=
  { id := "s1", items := demoCart, total := 17, date := demoDate,
    paymentMethod := .card, observation := "" }

def demoAppPending : AppState :=
  { products := demoProducts, sales := [demoPendingSale] }

def demoAppResolved : AppState :=
  { products := demoProducts, sales := [demoResolvedSale] }

def demoClock : Clock := { nowMs := 2, todayStartMs := 0 }

/-! ## Helper lemmas -/

/-- In a list whose keys are pairwise distinct, two members with the same
key are equal. -/
theorem key_inj {α β : Type} (key : α → β) :
    ∀ (l : List α), (l.map key).Nodup →
      ∀ a ∈ l, ∀ b ∈ l, key a = key b → a = b := by
  intro l
  induction l with
  | nil => intro _ a ha; exact absurd ha (List.not_mem_nil a)
  | cons x t ih =>
      intro hnd a ha b hb hk
      rw [List.map_cons, List.nodup_cons] at hnd
      rcases List.mem_cons.mp ha with ha1 | ha2
      · rcases List.mem_cons.mp hb with hb1 | hb2
        · rw [ha1, hb1]
        · subst ha1
          exact absurd (by rw [hk]; exact List.mem_map_of_mem key hb2) hnd.1
      · rcases List.mem_cons.mp hb with hb1 | hb2
        · subst hb1
          exact absurd (by rw [← hk]; exact List.mem_map_of_mem key ha2) hnd.1
        · exact ih hnd.2 a ha2 b hb2 hk

/-- In a list with pairwise-distinct string keys, `find?` on a member's
key returns exactly that member. -/
theorem find?_key_eq_some {α : Type} (key : α → String) (l : List α)
    (hnd : (l.map key).Nodup) (a : α) (ha : a ∈ l) :
    l.find? (fun x => key x == key a) = some a := by
  have hsome : (l.find? (fun x => key x == key a)).isSome := by
    rw [List.find?_isSome]
    exact ⟨a, ha, by simp⟩
  obtain ⟨b, hb⟩ := Option.isSome_iff_exists.mp hsome
  have hbmem : b ∈ l := List.mem_of_find?_eq_some hb
  have hbk : key b = key a := by
    have := List.find?_some hb
    simpa using this
  rw [hb, key_inj key l hnd b hbmem a ha hbk]

/-- `bumpQuantity` never changes an item's id. -/
theorem bumpQuantity_id (products : List Product) (id : String) (delta : Int)
    (item : CartItem) : (bumpQuantity products id delta item).id = item.id := by
  unfold bumpQuantity
  by_cases h : (item.id == id) = true
  · simp only [h, if_true]
    cases products.find? (fun p => p.id == id) with
    | none => rfl
    | some originalProduct =>
        by_cases h2 : originalProduct.stock < item.quantity + delta <;> simp [h2]
  · simp [h]

/-- The ids of `updateQuantity`'s result form a sublist of the cart's ids. -/
theorem updateQuantity_ids_sublist (products : List Product)
    (cart : List CartItem) (id : String) (delta : Int) :
    ((updateQuantity products cart id delta).map CartItem.id).Sublist
      (cart.map CartItem.id) := by
  unfold updateQuantity
  have h1 : ((cart.map (bumpQuantity products id delta)).filter
      (fun item => 0 < item.quantity)).Sublist (cart.map (bumpQuantity products id delta)) :=
    List.filter_sublist _
  have h2 := h1.map CartItem.id
  rw [List.map_map] at h2
  have h3 : cart.map (CartItem.id ∘ bumpQuantity products id delta) = cart.map CartItem.id :=
    List.map_congr_left (fun item _ => bumpQuantity_id products id delta item)
  rwa [h3] at h2

/-- `updateQuantity` preserves the cart invariant. -/
theorem updateQuantity_cartInv (products : List Product) (cart : List CartItem)
    (id : String) (delta : Int) (h : CartInv products cart) :
    CartInv products (updateQuantity products cart id delta) := by
  intro item' hmem
  unfold updateQuantity at hmem
  rw [List.mem_filter] at hmem
  obtain ⟨hmap, hpos⟩ := hmem
  rw [List.mem_map] at hmap
  obtain ⟨item, hitem, rfl⟩ := hmap
  have hpos' : 0 < (bumpQuantity products id delta item).quantity := by simpa using hpos
  refine ⟨by omega, ?_⟩
  obtain ⟨hq1, hbound⟩ := h item hitem
  unfold bumpQuantity at hpos' ⊢
  by_cases hid : (item.id == id) = true
  · have hideq : item.id = id := by simpa using hid
    simp only [hid, if_true] at hpos' ⊢
    rcases hfind : products.find? (fun p => p.id == id) with _ | originalProduct
    · simp only [hfind] at hpos' ⊢
      simp [bumpQuantity_id, hideq, hfind]
    · simp only [hfind] at hpos' ⊢
      by_cases hover : originalProduct.stock < item.quantity + delta
      · simp only [hover, if_true] at hpos' ⊢
        simpa [hideq, hfind] using hbound
      · simp only [hover, if_false] at hpos' ⊢
        have hqty : (0 : Int) < max 0 (item.quantity + delta) := by simpa using hpos'
        have heq : max 0 (item.quantity + delta) = item.quantity + delta := by
          rcases le_or_lt (item.quantity + delta) 0 with hle | hlt
          · rw [max_eq_left hle] at hqty; omega
          · exact max_eq_right hlt.le
        simp only [hideq, hfind, Option.all_some, heq]
        simp only [not_lt] at hover
        simpa using hover
  · simp only [hid, if_false] at hpos' ⊢
    exact hbound


/-- A whole sequence of `changeQuantity` calls preserves the cart invariant. -/
theorem applyChangeQuantity_cartInv (products : List Product)
    (calls : List (String × Int)) :
    ∀ cart : List CartItem, CartInv products cart →
      CartInv products (applyChangeQuantity products cart calls) := by
  induction calls with
  | nil => intro cart h; exact h
  | cons c t ih =>
      intro cart h
      exact ih _ (updateQuantity_cartInv products cart c.1 c.2 h)

/-- `jsOrZero` is the identity on rationals (only `NaN` and `0` are falsy,
and `0 || 0` is `0`). -/
theorem jsOrZero_self (q : ℚ) : jsOrZero q = q := by
  by_cases h : q = 0 <;> simp [jsOrZero, h]

/-- Characters other than the comma are kept by the first-comma replacement. -/
theorem replaceFirstCommaAux_of_not_mem :
    ∀ l : List Char, ',' ∉ l → replaceFirstCommaAux l = l := by
  intro l
  induction l with
  | nil => intro _; rfl
  | cons c t ih =>
      intro h
      rw [List.mem_cons, not_or] at h
      rw [replaceFirstCommaAux, if_neg (fun hc => h.1 hc.symm), ih h.2]

/-- The first-comma replacement turns the first comma into a period and
leaves everything after it untouched. -/
theorem replaceFirstCommaAux_append :
    ∀ a b : List Char, ',' ∉ a →
      replaceFirstCommaAux (a ++ ',' :: b) = a ++ '.' :: b := by
  intro a
  induction a with
  | nil => intro b _; simp [replaceFirstCommaAux]
  | cons c t ih =>
      intro b h
      rw [List.mem_cons, not_or] at h
      rw [List.cons_append, replaceFirstCommaAux, if_neg (fun hc => h.1 hc.symm),
        ih b h.2, List.cons_append]

/-- `sumTotals` with an arbitrary accumulator, as a mapped sum. -/
theorem foldl_total_eq_sum :
    ∀ (l : List Sale) (a : ℚ), l.foldl (fun acc s => acc + s.total) a =
      a + (l.map Sale.total).sum := by
  intro l
  induction l with
  | nil => intro a; simp
  | cons s t ih =>
      intro a
      rw [List.foldl_cons, ih, List.map_cons, List.sum_cons]
      ring

theorem sumTotals_eq_sum (l : List Sale) : sumTotals l = (l.map Sale.total).sum := by
  rw [sumTotals, foldl_total_eq_sum]
  simp

/-- Splitting a sum of totals along a Boolean predicate. -/
theorem sumTotals_filter_partition (p : Sale → Bool) :
    ∀ l : List Sale,
      sumTotals (l.filter p) + sumTotals (l.filter (fun s => !(p s))) = sumTotals l := by
  intro l
  induction l with
  | nil => simp [sumTotals]
  | cons s t ih =>
      rw [List.filter_cons, List.filter_cons]
      by_cases h : p s = true
      · rw [if_pos h, if_neg (by simp [h])]
        rw [sumTotals_eq_sum, sumTotals_eq_sum, sumTotals_eq_sum] at ih ⊢
        rw [List.map_cons, List.sum_cons, List.map_cons, List.sum_cons]
        linarith
      · rw [if_neg h, if_pos (by simp [h])]
        rw [sumTotals_eq_sum, sumTotals_eq_sum, sumTotals_eq_sum] at ih ⊢
        rw [List.map_cons, List.sum_cons, List.map_cons, List.sum_cons]
        linarith

/-- `sellOne` never changes a product's id. -/
theorem sellOne_id (items : List CartItem) (p : Product) :
    (sellOne items p).id = p.id := by
  unfold sellOne
  cases items.find? (fun i => i.id == p.id) with
  | none => rfl
  | some i => rfl

/-- `addToCart` with a member of the product collection preserves the cart
invariant and the distinctness of cart item ids. -/
theorem addToCart_inv (products : List Product) (cart : List CartItem) (p : Product)
    (hpnd : (products.map Product.id).Nodup) (hcnd : (cart.map CartItem.id).Nodup)
    (hp : p ∈ products) (hinv : CartInv products cart) :
    CartInv products (addToCart cart p) ∧
      ((addToCart cart p).map CartItem.id).Nodup := by
  unfold addToCart
  by_cases hs : p.stock ≤ 0
  · rw [if_pos hs]; exact ⟨hinv, hcnd⟩
  · rw [if_neg hs]
    have hfound : products.find? (fun x => x.id == p.id) = some p :=
      find?_key_eq_some Product.id products hpnd p hp
    rcases hfind : cart.find? (fun item => item.id == p.id) with _ | e
    · simp only [hfind]
      constructor
      · intro item hmem
        rcases List.mem_append.mp hmem with hold | hnew
        · exact hinv item hold
        · have : item = CartItem.ofProduct p 1 := by simpa using hnew
          subst this
          refine ⟨le_refl 1, ?_⟩
          have : (CartItem.ofProduct p 1).id = p.id := rfl
          rw [this, hfound, Option.all_some]
          have : (1 : Int) ≤ p.stock := by omega
          simpa [CartItem.ofProduct] using this
      · rw [List.map_append, List.nodup_append]
        refine ⟨hcnd, by simp, ?_⟩
        intro x hx hy
        have hxid : x = p.id := by simpa [CartItem.ofProduct] using hy
        subst hxid
        rw [List.mem_map] at hx
        obtain ⟨item, hitem, hid⟩ := hx
        have := List.find?_eq_none.mp hfind item hitem
        simp only [beq_iff_eq] at this
        exact this hid
    · simp only [hfind]
      have he_mem : e ∈ cart := List.mem_of_find?_eq_some hfind
      have he_id : e.id = p.id := by simpa using List.find?_some hfind
      by_cases hfull : p.stock ≤ e.quantity
      · rw [if_pos hfull]; exact ⟨hinv, hcnd⟩
      · rw [if_neg hfull]
        constructor
        · intro item' hmem
          rw [List.mem_map] at hmem
          obtain ⟨item, hitem, rfl⟩ := hmem
          by_cases hid : (item.id == p.id) = true
          · have hideq : item.id = p.id := by simpa using hid
            have hitem_e : item = e :=
              key_inj CartItem.id cart hcnd item hitem e he_mem (by rw [hideq, he_id])
            subst hitem_e
            simp only [hid, if_true]
            obtain ⟨hq1, _⟩ := hinv item hitem
            refine ⟨by omega, ?_⟩
            have hgoal_id : ({ item with quantity := item.quantity + 1 } : CartItem).id = p.id := by
              simpa using hideq
            rw [hgoal_id, hfound, Option.all_some]
            have : item.quantity + 1 ≤ p.stock := by omega
            simpa using this
          · simp only [hid, if_false]
            exact hinv item hitem
        · have : (cart.map (fun item =>
              if item.id == p.id then { item with quantity := item.quantity + 1 }
              else item)).map CartItem.id = cart.map CartItem.id := by
            rw [List.map_map]
            refine List.map_congr_left ?_
            intro item _
            by_cases hid : item.id = p.id <;> simp [hid]
          rw [this]
          exact hcnd

/-- Checkout preserves the full state invariant; in particular the stock
decrement `product.stock - item.quantity` never drives a stock negative,
because the cart invariant bounds each sold quantity by the live stock. -/
theorem handleCheckout_inv (st : POSState) (fid : String) (now : JSDate)
    (h : StateInv st) : StateInv (handleCheckout st fid now) := by
  obtain ⟨hpnd, hcnd, hstock, hinv⟩ := h
  unfold handleCheckout
  by_cases hemp : st.cart.length = 0
  · rw [if_pos hemp]; exact ⟨hpnd, hcnd, hstock, hinv⟩
  · rw [if_neg hemp]
    refine ⟨?_, by simp, ?_, ?_⟩
    · simp only [handleCompleteSale]
      rw [List.map_map]
      have : st.products.map (Product.id ∘ sellOne st.cart) = st.products.map Product.id :=
        List.map_congr_left (fun q _ => sellOne_id st.cart q)
      rw [this]
      exact hpnd
    · intro p' hp'
      simp only [handleCompleteSale] at hp'
      rw [List.mem_map] at hp'
      obtain ⟨p0, hp0, rfl⟩ := hp'
      unfold sellOne
      rcases hfind : st.cart.find? (fun i => i.id == p0.id) with _ | i
      · simp only [hfind]
        exact hstock p0 hp0
      · simp only [hfind]
        have hi_mem : i ∈ st.cart := List.mem_of_find?_eq_some hfind
        have hi_id : i.id = p0.id := by simpa using List.find?_some hfind
        obtain ⟨_, hbound⟩ := hinv i hi_mem
        rw [hi_id, find?_key_eq_some Product.id st.products hpnd p0 hp0,
          Option.all_some] at hbound
        have : i.quantity ≤ p0.stock := by simpa using hbound
        show 0 ≤ p0.stock - i.quantity
        omega
    · intro item hmem
      exact absurd hmem (List.not_mem_nil item)

/-- Every POS user action preserves the full state invariant. -/
theorem stepOp_inv (st : POSState) (op : POSOp) (h : StateInv st) :
    StateInv (stepOp st op) := by
  obtain ⟨hpnd, hcnd, hstock, hinv⟩ := h
  cases op with
  | add pid =>
      simp only [stepOp]
      rcases hfind : st.products.find? (fun p => p.id == pid) with _ | p
      · simp only [hfind]
        exact ⟨hpnd, hcnd, hstock, hinv⟩
      · simp only [hfind]
        have hp : p ∈ st.products := List.mem_of_find?_eq_some hfind
        obtain ⟨h1, h2⟩ := addToCart_inv st.products st.cart p hpnd hcnd hp hinv
        exact ⟨hpnd, h2, hstock, h1⟩
  | change i δ =>
      refine ⟨hpnd, ?_, hstock, ?_⟩
      · exact (updateQuantity_ids_sublist st.products st.cart i δ).nodup hcnd
      · exact updateQuantity_cartInv st.products st.cart i δ hinv
  | remove i =>
      refine ⟨hpnd, ?_, hstock, ?_⟩
      · have hsub : ((removeFromCart st.cart i).map CartItem.id).Sublist
            (st.cart.map CartItem.id) :=
          (List.filter_sublist st.cart).map CartItem.id
        exact hsub.nodup hcnd
      · intro item hmem
        exact hinv item (List.mem_of_mem_filter hmem)
  | checkout fid now => exact handleCheckout_inv st fid now ⟨hpnd, hcnd, hstock, hinv⟩

/-- Any sequence of POS user actions preserves the full state invariant. -/
theorem applyOps_inv (ops : List POSOp) :
    ∀ st : POSState, StateInv st → StateInv (applyOps st ops) := by
  induction ops with
  | nil => intro st h; exact h
  | cons op t ih =>
      intro st h
      exact ih (stepOp st op) (stepOp_inv st op h)

/-! ## Claim theorems -/

/-- C1: for every cart, every product collection, and every sequence of
`changeQuantity (itemId, delta)` calls, starting from a cart satisfying the
cart invariant, every resulting cart item has a quantity in
`[0, product.stock]` where the stock bound is looked up live in the
product collection, and a resulting quantity of exactly `0` removes the
item from the cart (every surviving item has positive quantity). -/
theorem changeQuantity_in_bounds (products : List Product) (cart : List CartItem)
    (calls : List (String × Int)) (h : CartInv products cart) :
    ∀ item ∈ applyChangeQuantity products cart calls,
      0 < item.quantity ∧
      ∀ p, products.find? (fun q => q.id == item.id) = some p →
        0 ≤ item.quantity ∧ item.quantity ≤ p.stock := by
  intro item hmem
  obtain ⟨h1, h2⟩ := applyChangeQuantity_cartInv products calls cart h item hmem
  refine ⟨by omega, ?_⟩
  intro p hp
  rw [hp, Option.all_some] at h2
  exact ⟨by omega, by simpa using h2⟩

/-- Witness for C1 at a concrete cart: two `changeQuantity` calls on the
sample cart leave the item's quantity positive and within the live stock. -/
theorem changeQuantity_in_bounds_witness :
    0 < (CartItem.ofProduct demoProduct 4).quantity ∧
      (CartItem.ofProduct demoProduct 4).quantity ≤ demoProduct.stock := by
  have h := changeQuantity_in_bounds demoProducts demoCart [("p1", 3), ("p1", -1)]
    (by decide) (CartItem.ofProduct demoProduct 4) (by decide)
  exact ⟨h.1, (h.2 demoProduct (by decide)).2⟩

/-- C5: `addToCart` is a no-op when the product is out of stock or when the
item already sits in the cart at its stock ceiling; otherwise it inserts
the item at quantity 1 or increments the existing quantity by 1, and the
resulting quantity for that product never exceeds `product.stock`. -/
theorem addToCart_spec (cart : List CartItem) (p : Product)
    (hnd : (cart.map CartItem.id).Nodup)
    (hbound : ∀ i ∈ cart, i.id = p.id → i.quantity ≤ p.stock) :
    (p.stock ≤ 0 → addToCart cart p = cart) ∧
    (∀ e ∈ cart, e.id = p.id → e.quantity = p.stock → addToCart cart p = cart) ∧
    (0 < p.stock → (∀ i ∈ cart, i.id ≠ p.id) →
      addToCart cart p = cart ++ [CartItem.ofProduct p 1]) ∧
    (0 < p.stock → ∀ e ∈ cart, e.id = p.id → e.quantity < p.stock →
      addToCart cart p = cart.map (fun i =>
        if i.id == p.id then { i with quantity := i.quantity + 1 } else i)) ∧
    (∀ i ∈ addToCart cart p, i.id = p.id → i.quantity ≤ p.stock) := by
  refine ⟨?_, ?_, ?_, ?_, ?_⟩
  · intro hs
    unfold addToCart
    rw [if_pos hs]
  · intro e he heid heq
    unfold addToCart
    by_cases hs : p.stock ≤ 0
    · rw [if_pos hs]
    · rw [if_neg hs]
      have hfind : cart.find? (fun item => item.id == p.id) = some e := by
        have := find?_key_eq_some CartItem.id cart hnd e he
        rwa [heid] at this
      simp only [hfind, if_pos (le_of_eq heq.symm)]
  · intro hs hno
    unfold addToCart
    rw [if_neg (by omega)]
    have hfind : cart.find? (fun item => item.id == p.id) = none :=
      List.find?_eq_none.mpr (fun i hi => by simpa using hno i hi)
    simp only [hfind]
  · intro hs e he heid hlt
    unfold addToCart
    rw [if_neg (by omega)]
    have hfind : cart.find? (fun item => item.id == p.id) = some e := by
      have := find?_key_eq_some CartItem.id cart hnd e he
      rwa [heid] at this
    simp only [hfind, if_neg (not_le.mpr hlt)]
  · intro i hi hiid
    unfold addToCart at hi
    by_cases hs : p.stock ≤ 0
    · rw [if_pos hs] at hi
      exact hbound i hi hiid
    · rw [if_neg hs] at hi
      rcases hfind : cart.find? (fun item => item.id == p.id) with _ | e
      · simp only [hfind] at hi
        rcases List.mem_append.mp hi with hold | hnew
        · exact hbound i hold hiid
        · have : i = CartItem.ofProduct p 1 := by simpa using hnew
          subst this
          show (1 : Int) ≤ p.stock
          omega
      · simp only [hfind] at hi
        have he_mem : e ∈ cart := List.mem_of_find?_eq_some hfind
        have he_id : e.id = p.id := by simpa using List.find?_some hfind
        by_cases hfull : p.stock ≤ e.quantity
        · rw [if_pos hfull] at hi
          exact hbound i hi hiid
        · rw [if_neg hfull] at hi
          rw [List.mem_map] at hi
          obtain ⟨i0, hi0, rfl⟩ := hi
          by_cases hid : (i0.id == p.id) = true
          · have hideq : i0.id = p.id := by simpa using hid
            have : i0 = e := key_inj CartItem.id cart hnd i0 hi0 e he_mem
              (by rw [hideq, he_id])
            subst this
            simp only [hid, if_true]
            show i0.quantity + 1 ≤ p.stock
            omega
          · simp only [hid, if_false] at hiid ⊢
            exact hbound i0 hi0 hiid

/-- Witness for C5: adding the sample product (stock 50, already at
quantity 2 in the cart) increments its quantity by one. -/
theorem addToCart_spec_witness :
    addToCart demoCart demoProduct = demoCart.map (fun i =>
      if i.id == demoProduct.id then { i with quantity := i.quantity + 1 } else i) := by
  have h := (addToCart_spec demoCart demoProduct (by decide) (by decide)).2.2.2.1
  exact h (by decide) (CartItem.ofProduct demoProduct 2) (by decide) (by decide) (by decide)

/-- C8: checkout on an empty cart is a no-op: no sale is produced and the
whole POS state (products, sales, cart, and the transient form fields) is
returned unchanged. -/
theorem checkout_empty_cart_noop (st : POSState) (freshId : String) (now : JSDate)
    (h : st.cart = []) : handleCheckout st freshId now = st := by
  unfold handleCheckout
  rw [h]
  rfl

/-- Witness for C8 at a concrete empty-cart state. -/
theorem checkout_empty_cart_noop_witness :
    handleCheckout demoEmptyState "x" demoDate = demoEmptyState :=
  checkout_empty_cart_noop demoEmptyState "x" demoDate rfl

/-- C10: `verifyCredentials` accepts the hardcoded `admin`/`admin` pair in
every backend state — in particular also when the cloud backend is enabled
and reachable and its `app_users` table holds no such pair — because the
hardcoded check runs whenever the remote branch does not return `true`. -/
theorem verifyCredentials_admin_unconditional :
    ∀ b : Backend, verifyCredentials b "admin" "admin" = true := by
  intro b
  unfold verifyCredentials
  by_cases h : (b.cloudEnabled && remoteSingleOk b "admin" "admin") = true
  · rw [if_pos h]
  · rw [if_neg h]
    rfl

/-- C6: for every sales list, date range, payment filter and clock, the
received and pending revenue sums partition the filtered sales' totals:
their sum equals the sum of all filtered totals. -/
theorem revenue_partition (sales : List Sale) (range : DateRange)
    (pf : PaymentFilter) (clock : Clock) :
    totalRevenue sales range pf clock + pendingRevenue sales range pf clock =
      sumTotals (filteredSales sales range pf clock) := by
  unfold totalRevenue pendingRevenue
  have h := sumTotals_filter_partition
    (fun s => (s.paymentMethod = PaymentMethod.pending : Bool))
    (filteredSales sales range pf clock)
  rw [add_comm] at h
  exact h

/-- C7: for the date range `today`, the chart series has exactly 14 points,
one per hour from 08:00 to 21:00 inclusive in hour order; the point for
hour `k + 8` is valued at the sum of totals of the filtered sales whose
local hour equals `k + 8`, and an hour with no sales yields the value `0`
rather than being omitted. -/
theorem chartData_today_hourly (sales : List Sale) (pf : PaymentFilter)
    (clock : Clock) :
    (chartDataToday (filteredSales sales DateRange.today pf clock)).length = 14 ∧
    (∀ k, k < 14 →
      (chartDataToday (filteredSales sales DateRange.today pf clock))[k]? =
        some (toString (k + 8) ++ "h",
          sumTotals ((filteredSales sales DateRange.today pf clock).filter
            (fun s => s.date.localHour == k + 8)))) ∧
    (∀ k, k < 14 →
      (∀ s ∈ filteredSales sales DateRange.today pf clock, s.date.localHour ≠ k + 8) →
      (chartDataToday (filteredSales sales DateRange.today pf clock))[k]? =
        some (toString (k + 8) ++ "h", 0)) := by
  have hpoint : ∀ k, k < 14 →
      (chartDataToday (filteredSales sales DateRange.today pf clock))[k]? =
        some (toString (k + 8) ++ "h",
          sumTotals ((filteredSales sales DateRange.today pf clock).filter
            (fun s => s.date.localHour == k + 8))) := by
    intro k hk
    unfold chartDataToday
    rw [List.getElem?_map, List.getElem?_range hk]
    rfl
  refine ⟨by simp [chartDataToday], hpoint, ?_⟩
  intro k hk hnone
  rw [hpoint k hk]
  have hfil : (filteredSales sales DateRange.today pf clock).filter
      (fun s => s.date.localHour == k + 8) = [] := by
    rw [List.filter_eq_nil_iff]
    intro s hs
    simpa using hnone s hs
  rw [hfil]
  rfl

/-- Witness for C7: with one filtered sale at local hour 10, the 10-o'clock
point carries its total and the 8-o'clock point is zero-filled. -/
theorem chartData_today_hourly_witness :
    (chartDataToday (filteredSales [demoPendingSale] DateRange.today .all demoClock))[2]? =
      some ("10h", sumTotals ((filteredSales [demoPendingSale] DateRange.today .all
        demoClock).filter (fun s => s.date.localHour == 10))) ∧
    (chartDataToday (filteredSales [demoPendingSale] DateRange.today .all demoClock))[0]? =
      some ("8h", 0) := by
  have h := chartData_today_hourly [demoPendingSale] .all demoClock
  exact ⟨h.2.1 2 (by omega), h.2.2 0 (by omega) (by decide)⟩

/-- C9: the pending-sale resolution handler modifies at most the
`paymentMethod` field of the sales whose id is `saleId`: the length and
order of the sales list are preserved, every sale keeps its id, items,
total, date and observation, every sale with a different id is unchanged,
and the product collection is untouched. -/
theorem resolvePending_frame (st : AppState) (saleId : String) (m : ResolvedMethod) :
    (resolvePendingApp st saleId m).products = st.products ∧
    (resolvePendingApp st saleId m).sales.length = st.sales.length ∧
    (∀ (k : Nat) (s : Sale), st.sales[k]? = some s →
      ∃ s2 : Sale, (resolvePendingApp st saleId m).sales[k]? = some s2 ∧
        s2.id = s.id ∧ s2.items = s.items ∧ s2.total = s.total ∧
        s2.date = s.date ∧ s2.observation = s.observation ∧
        (s.id ≠ saleId → s2 = s)) := by
  refine ⟨rfl, ?_, ?_⟩
  · simp [resolvePendingApp, handleResolvePendingSale]
  · intro k s hk
    by_cases hid : (s.id == saleId) = true
    · refine ⟨{ s with paymentMethod := m.toPayment }, ?_, rfl, rfl, rfl, rfl, rfl, ?_⟩
      · show (st.sales.map (fun s =>
            if s.id == saleId then { s with paymentMethod := m.toPayment } else s))[k]? = _
        rw [List.getElem?_map, hk, Option.map_some']
        rw [if_pos hid]
      · intro hne
        exact absurd (by simpa using hid) hne
    · refine ⟨s, ?_, rfl, rfl, rfl, rfl, rfl, fun _ => rfl⟩
      show (st.sales.map (fun s =>
          if s.id == saleId then { s with paymentMethod := m.toPayment } else s))[k]? = _
      rw [List.getElem?_map, hk, Option.map_some']
      rw [if_neg hid]

/-- Witness for C9 at a concrete one-sale state. -/
theorem resolvePending_frame_witness :
    (resolvePendingApp demoAppPending "s1" .pix).products = demoAppPending.products ∧
    (resolvePendingApp demoAppPending "s1" .pix).sales.length =
      demoAppPending.sales.length := by
  have h := resolvePending_frame demoAppPending "s1" .pix
  exact ⟨h.1, h.2.1⟩

/-- A resolution target is never `pending`. -/
theorem toPayment_ne_pending (m : ResolvedMethod) :
    m.toPayment ≠ PaymentMethod.pending := by
  cases m <;> simp [ResolvedMethod.toPayment]

/-- The per-sale body of `handleResolvePendingSale` preserves sale ids. -/
theorem resolveBody_id (saleId : String) (m : ResolvedMethod) (x : Sale) :
    (if x.id == saleId then { x with paymentMethod := m.toPayment } else x).id = x.id := by
  by_cases h : x.id = saleId <;> simp [h]

/-- C3: via the Dashboard-gated resolution action, a sale's payment method
transitions at most once, from `pending` to one of {cash, card, pix, ifood}:
if every sale carrying `saleId` is already resolved the action is a no-op
on the whole state; applying the action twice is the same as applying it
once (the second invocation is a no-op); and resolving a pending sale sets
its method to the chosen non-`pending` target. -/
theorem resolvePending_once (st : AppState) (saleId : String)
    (m m2 : ResolvedMethod) :
    ((∀ s ∈ st.sales, s.id = saleId → s.paymentMethod ≠ PaymentMethod.pending) →
      resolvePendingFromDashboard st saleId m = st) ∧
    (resolvePendingFromDashboard (resolvePendingFromDashboard st saleId m) saleId m2 =
      resolvePendingFromDashboard st saleId m) ∧
    (∀ (k : Nat) (s : Sale), st.sales[k]? = some s → s.id = saleId →
      s.paymentMethod = PaymentMethod.pending → (st.sales.map Sale.id).Nodup →
      ∃ s2 : Sale, (resolvePendingFromDashboard st saleId m).sales[k]? = some s2 ∧
        s2.paymentMethod = m.toPayment ∧ m.toPayment ≠ PaymentMethod.pending) := by
  refine ⟨?_, ?_, ?_⟩
  · intro hall
    unfold resolvePendingFromDashboard
    rcases hfind : st.sales.find? (fun s => s.id == saleId) with _ | s
    · simp only [hfind]
    · simp only [hfind]
      have hs_mem : s ∈ st.sales := List.mem_of_find?_eq_some hfind
      have hs_id : s.id = saleId := by simpa using List.find?_some hfind
      rw [if_neg (hall s hs_mem hs_id)]
  · rcases hfind : st.sales.find? (fun s => s.id == saleId) with _ | s
    · have h1 : resolvePendingFromDashboard st saleId m = st := by
        unfold resolvePendingFromDashboard
        simp only [hfind]
      rw [h1]
      unfold resolvePendingFromDashboard
      simp only [hfind]
    · by_cases hpm : s.paymentMethod = PaymentMethod.pending
      · have hs_id : s.id = saleId := by simpa using List.find?_some hfind
        have h1 : resolvePendingFromDashboard st saleId m =
            resolvePendingApp st saleId m := by
          unfold resolvePendingFromDashboard
          simp only [hfind]
          rw [if_pos hpm]
        rw [h1]
        have hfind2 : (resolvePendingApp st saleId m).sales.find?
            (fun x => x.id == saleId) =
            some { s with paymentMethod := m.toPayment } := by
          show (st.sales.map (fun s =>
              if s.id == saleId then { s with paymentMethod := m.toPayment } else s)).find?
              (fun x => x.id == saleId) = _
          rw [List.find?_map]
          have hcomp : ((fun x : Sale => x.id == saleId) ∘ (fun s : Sale =>
              if s.id == saleId then { s with paymentMethod := m.toPayment } else s)) =
              (fun s : Sale => s.id == saleId) := by
            funext x
            show ((if x.id == saleId then
              { x with paymentMethod := m.toPayment } else x).id == saleId) =
              (x.id == saleId)
            rw [resolveBody_id saleId m x]
          rw [hcomp, hfind, Option.map_some']
          rw [if_pos (by simpa using hs_id)]
        unfold resolvePendingFromDashboard
        simp only [hfind2]
        rw [if_neg (toPayment_ne_pending m)]
      · have h1 : resolvePendingFromDashboard st saleId m = st := by
          unfold resolvePendingFromDashboard
          simp only [hfind]
          rw [if_neg hpm]
        have h2 : resolvePendingFromDashboard st saleId m2 = st := by
          unfold resolvePendingFromDashboard
          simp only [hfind]
          rw [if_neg hpm]
        rw [h1, h2]
  · intro k s hk hid hpm hnd
    have hs_mem : s ∈ st.sales := List.getElem?_mem hk
    have hfind : st.sales.find? (fun x => x.id == saleId) = some s := by
      have := find?_key_eq_some Sale.id st.sales hnd s hs_mem
      rwa [hid] at this
    have h1 : resolvePendingFromDashboard st saleId m =
        resolvePendingApp st saleId m := by
      unfold resolvePendingFromDashboard
      simp only [hfind]
      rw [if_pos hpm]
    rw [h1]
    refine ⟨{ s with paymentMethod := m.toPayment }, ?_, rfl, toPayment_ne_pending m⟩
    show (st.sales.map (fun s =>
        if s.id == saleId then { s with paymentMethod := m.toPayment } else s))[k]? = _
    rw [List.getElem?_map, hk, Option.map_some']
    rw [if_pos (by simpa using hid)]

/-- Witness for C3: resolving the sample pending sale to `pix` and then
attempting a second resolution to `cash` changes nothing, and the action
on an already-resolved sale is a no-op. -/
theorem resolvePending_once_witness :
    (resolvePendingFromDashboard (resolvePendingFromDashboard demoAppPending "s1" .pix)
        "s1" .cash =
      resolvePendingFromDashboard demoAppPending "s1" .pix) ∧
    resolvePendingFromDashboard demoAppResolved "s1" .cash = demoAppResolved := by
  refine ⟨(resolvePending_once demoAppPending "s1" .pix .cash).2.1, ?_⟩
  exact (resolvePending_once demoAppResolved "s1" .cash .cash).1 (by decide)

/-- C4: starting from any state satisfying the state invariant, every
sequence of POS actions keeps every product's stock non-negative
(`stock >= 0` is an invariant, enforced by the cart's stock ceiling, not
by the data layer); and a checkout decrements each affected product's
stock by exactly the sold item's quantity in the single in-memory pass
over the product list, leaving unaffected products unchanged. -/
theorem sale_stock_decrement (st : POSState) (h : StateInv st) (ops : List POSOp) :
    (∀ p ∈ (applyOps st ops).products, 0 ≤ p.stock) ∧
    (∀ (freshId : String) (now : JSDate), st.cart ≠ [] →
      ∀ (k : Nat) (p : Product), st.products[k]? = some p →
        (handleCheckout st freshId now).products[k]? = some (sellOne st.cart p) ∧
        ∀ i : CartItem, st.cart.find? (fun x => x.id == p.id) = some i →
          sellOne st.cart p = { p with stock := p.stock - i.quantity }) := by
  constructor
  · exact (applyOps_inv ops st h).2.2.1
  · intro freshId now hne k p hk
    have hlen : ¬ st.cart.length = 0 := by
      simpa [List.length_eq_zero] using hne
    constructor
    · unfold handleCheckout
      rw [if_neg hlen]
      show (st.products.map (sellOne st.cart))[k]? = some (sellOne st.cart p)
      rw [List.getElem?_map, hk, Option.map_some']
    · intro i hfind
      unfold sellOne
      simp only [hfind]

/-- Witness for C4: from the sample state, adding one more unit of the
first product and checking out leaves all stocks non-negative, and the
checkout maps the first product to its stock-decremented copy. -/
theorem sale_stock_decrement_witness :
    (0 : Int) ≤ (Product.stock { demoProduct with stock := 47 }) ∧
    (handleCheckout demoState "s1" demoDate).products[0]? =
      some (sellOne demoState.cart demoProduct) := by
  have h := sale_stock_decrement demoState (by decide)
    [POSOp.add "p1", POSOp.checkout "s1" demoDate]
  refine ⟨?_, ?_⟩
  · exact h.1 { demoProduct with stock := 47 } (by decide)
  · exact (h.2 "s1" demoDate (by decide) 0 demoProduct (by decide)).1

/-- The delivery annotation is never the empty string. -/
theorem deliveryText_ne_empty (q : ℚ) : deliveryText q ≠ "" := by
  intro h
  have hl := congrArg String.length h
  rw [deliveryText, String.length_append, String.length_append] at hl
  have h1 : ("[Entrega: R$ " : String).length = 13 := by decide
  have h2 : ("]" : String).length = 1 := by decide
  have h0 : ("" : String).length = 0 := by decide
  rw [h1, h2, h0] at hl
  omega

/-- Appending a non-empty string changes a string. -/
theorem append_ne_self (a b : String) (hb : b.length ≠ 0) : a ++ b ≠ a := by
  intro h
  have hl := congrArg String.length h
  rw [String.length_append] at hl
  omega

/-- C2 (counterexample to the claim as stated): the code computes
`deliveryValue = parseFloat(deliveryCost.replace(',', '.')) || 0` with no
`max(0, ·)` clamp, so the input string `"-5"` yields the delivery value
`-5`, which is negative and differs from `max(0, -5) = 0`. -/
theorem delivery_negative_counterexample :
    deliveryValueOf "-5" = -5 ∧ deliveryValueOf "-5" < 0 ∧
      deliveryValueOf "-5" ≠ max 0 (-5 : ℚ) := by
  have hd5 : digitsVal ['5'] = 5 := by decide
  have hfv : fracVal [] = 0 := by
    rw [fracVal]
    norm_num [digitsVal]
  have h5 : deliveryValueOf "-5" = -5 := by
    have hrep : replaceFirstComma "-5" = "-5" := rfl
    have hparse : jsParseFloat "-5" =
        some (-(((digitsVal ['5'] : ℕ) : ℚ) + fracVal [])) := rfl
    unfold deliveryValueOf
    rw [hrep, hparse]
    show jsOrZero (-(((digitsVal ['5'] : ℕ) : ℚ) + fracVal [])) = -5
    rw [hd5, hfv, jsOrZero_self]
    norm_num
  refine ⟨h5, by rw [h5]; norm_num, by rw [h5]; norm_num⟩

/-- C2 (amended): for every non-empty cart and delivery-cost input,
checkout records a sale whose total is `productsTotal + deliveryValue`,
where `deliveryValue` is the parsed input (comma accepted as decimal
separator) or `0` when parsing fails or yields `0` — with no clamp, so it
may be negative — and the currency-formatted delivery annotation is
appended to the observation if and only if `deliveryValue > 0`. -/
theorem checkout_delivery_amended :
    (∀ (st : POSState) (freshId : String) (now : JSDate), st.cart ≠ [] →
      ∃ sale : Sale,
        (handleCheckout st freshId now).sales = st.sales ++ [sale] ∧
        sale.total = productsTotal st.cart + deliveryValueOf st.deliveryCost ∧
        (deliveryValueOf st.deliveryCost ≤ 0 → sale.observation = st.observation) ∧
        (0 < deliveryValueOf st.deliveryCost →
          sale.observation ≠ st.observation ∧
          ∃ pre : String, sale.observation =
            pre ++ deliveryText (deliveryValueOf st.deliveryCost))) ∧
    (∀ a b : List Char, ',' ∉ a → ',' ∉ b →
      deliveryValueOf (String.mk (a ++ ',' :: b)) =
        deliveryValueOf (String.mk (a ++ '.' :: b))) := by
  constructor
  · intro st freshId now hne
    have hlen : ¬ st.cart.length = 0 := by
      simpa [List.length_eq_zero] using hne
    refine ⟨{
        id := freshId,
        items := st.cart,
        total := productsTotal st.cart + jsOrZero (deliveryValueOf st.deliveryCost),
        date := now,
        paymentMethod := st.paymentMethod,
        observation := finalObservationOf st.observation
          (jsOrZero (deliveryValueOf st.deliveryCost)) }, ?_, ?_, ?_, ?_⟩
    · unfold handleCheckout
      rw [if_neg hlen]
      rfl
    · show productsTotal st.cart + jsOrZero (deliveryValueOf st.deliveryCost) = _
      rw [jsOrZero_self]
    · intro hle
      show finalObservationOf st.observation
          (jsOrZero (deliveryValueOf st.deliveryCost)) = st.observation
      rw [jsOrZero_self]
      unfold finalObservationOf
      rw [if_neg (not_lt.mpr hle)]
    · intro hpos
      rw [jsOrZero_self]
      show finalObservationOf st.observation (deliveryValueOf st.deliveryCost) ≠
          st.observation ∧ _
      unfold finalObservationOf
      rw [if_pos hpos]
      by_cases hobs : st.observation = ""
      · rw [if_pos hobs, hobs]
        constructor
        · exact fun h => deliveryText_ne_empty _ h
        · exact ⟨"", rfl⟩
      · rw [if_neg hobs]
        constructor
        · have hlb : (" " ++ deliveryText (deliveryValueOf st.deliveryCost)).length ≠ 0 := by
            rw [String.length_append]
            have hsp : (" " : String).length = 1 := by decide
            omega
          have := append_ne_self st.observation
            (" " ++ deliveryText (deliveryValueOf st.deliveryCost)) hlb
          rwa [← String.append_assoc] at this
        · exact ⟨st.observation ++ " ", rfl⟩
  · intro a b ha hb
    have h1 : replaceFirstComma (String.mk (a ++ ',' :: b)) =
        String.mk (a ++ '.' :: b) := by
      show String.mk (replaceFirstCommaAux (a ++ ',' :: b)) = _
      rw [replaceFirstCommaAux_append a b ha]
    have h2 : replaceFirstComma (String.mk (a ++ '.' :: b)) =
        String.mk (a ++ '.' :: b) := by
      show String.mk (replaceFirstCommaAux (a ++ '.' :: b)) = _
      rw [replaceFirstCommaAux_of_not_mem]
      intro hmem
      rcases List.mem_append.mp hmem with h | h
      · exact ha h
      · rcases List.mem_cons.mp h with h | h
        · exact absurd h (by decide)
        · exact hb h
    unfold deliveryValueOf
    rw [h1, h2]

/-- Witness for C2 (amended): the sample cart (4×2 + 10×1 = 18) with
delivery input `"5,00"` (comma decimal separator) produces a single sale
with total 23. -/
theorem checkout_delivery_amended_witness :
    (handleCheckout demoState "sid" demoDate).sales.map Sale.total = [23] := by
  obtain ⟨sale, hs, ht, _, _⟩ :=
    checkout_delivery_amended.1 demoState "sid" demoDate (by decide)
  rw [hs]
  have h1 : demoState.sales = [] := rfl
  rw [h1, List.nil_append, List.map_cons, List.map_nil, ht]
  have hpt : productsTotal demoState.cart = 18 := by
    show productsTotal demoCart = 18
    unfold productsTotal demoCart
    rw [List.foldl_cons, List.foldl_cons, List.foldl_nil]
    norm_num [CartItem.ofProduct, demoProduct, demoProduct2]
  have hdv : deliveryValueOf demoState.deliveryCost = 5 := by
    show deliveryValueOf "5,00" = 5
    have hrep : replaceFirstComma "5,00" = "5.00" := rfl
    have hparse : jsParseFloat "5.00" =
        some (((digitsVal ['5'] : ℕ) : ℚ) + fracVal ['0', '0']) := rfl
    unfold deliveryValueOf
    rw [hrep, hparse]
    show jsOrZero (((digitsVal ['5'] : ℕ) : ℚ) + fracVal ['0', '0']) = 5
    have hd5 : digitsVal ['5'] = 5 := by decide
    have hd00 : digitsVal ['0', '0'] = 0 := by decide
    have hfv : fracVal ['0', '0'] = 0 := by
      rw [fracVal, hd00]
      norm_num
    rw [hd5, hfv, jsOrZero_self]
    norm_num
  rw [hpt, hdv]
  norm_num
